import Mathlib

/-!
Shallow embedding of `src/queries.js`: a script that runs a fixed catalog of
CRUD, query, aggregation and index/explain operations against one MongoDB
collection of book documents.  The collection is modelled as a `List Book`;
each script operation is a Lean function from the collection state to its
result (and new state where it writes).  Driver calls (`updateOne`,
`deleteOne`, cursor `sort`/`skip`/`limit`, `aggregate`) are modelled by their
documented MongoDB semantics.
-/

/-- A book document (§3 of the data model): title, author, genre,
`published_year`, price, `in_stock`.  Price is modelled as a rational. -/
structure Book where
  title : String
  author : String
  genre : String
  published_year : Int
  price : ℚ
  in_stock : Bool
deriving DecidableEq, Repr

/-- Driver model: `updateOne({ title }, { $set: { price: p } })`.
`updateOne` updates the first document matching the filter; `matchedCount`
counts the matched document, `modifiedCount` counts it only when the `$set`
actually changed the stored value (MongoDB reports `modifiedCount = 0` when
the new value equals the old one).  Returns (new state, matched, modified). -/
def updateOneSetPrice : List Book → String → ℚ → List Book × Nat × Nat
  | [], _, _ => ([], 0, 0)
  | b :: bs, t, p =>
    if b.title = t then
      ({ b with price := p } :: bs, 1, if b.price = p then 0 else 1)
    else
      let r := updateOneSetPrice bs t p
      (b :: r.1, r.2.1, r.2.2)

/-- Operation `updatePrice(title, newPrice)` from `queries.js` line 42: a single
`updateOne` with an exact-title filter and a `$set` on `price`. -/
def updatePrice (bs : List Book) (title : String) (newPrice : ℚ) :
    List Book × Nat × Nat :=
  updateOneSetPrice bs title newPrice

/-- Driver model: `deleteOne({ title })` removes the first document matching
the filter and reports `deletedCount` (1 if a document matched, else 0). -/
def deleteOneByTitle : List Book → String → List Book × Nat
  | [], _ => ([], 0)
  | b :: bs, t =>
    if b.title = t then (bs, 1)
    else
      let r := deleteOneByTitle bs t
      (b :: r.1, r.2)

/-- Operation `deleteByTitle(title)` from `queries.js` line 49: a single `deleteOne`
with an exact-title filter. -/
def deleteByTitle (bs : List Book) (title : String) : List Book × Nat :=
  deleteOneByTitle bs title

/-- Projection `{ title: 1, price: 1, _id: 0 }`. -/
structure TitlePrice where
  title : String
  price : ℚ
deriving DecidableEq, Repr

def projTitlePrice (b : Book) : TitlePrice := ⟨b.title, b.price⟩

/-- Operation `sortedByPrice(order = "asc")` from `queries.js` line 67: sorts the
whole collection by price — `{price: 1}` exactly when `order === "asc"`, otherwise
`{price: -1}` — projected to title and price.  The tie-break order among
equal prices is unspecified by MongoDB; the model uses a stable sort. -/
def sortedByPrice (bs : List Book) (order : String := "asc") : List TitlePrice :=
  if order = "asc" then
    (List.insertionSort (fun a b => a.price ≤ b.price) bs).map projTitlePrice
  else
    (List.insertionSort (fun a b => b.price ≤ a.price) bs).map projTitlePrice

/-- Projection `{ title: 1, author: 1, _id: 0 }`. -/
structure TitleAuthor where
  title : String
  author : String
deriving DecidableEq, Repr

def projTitleAuthor (b : Book) : TitleAuthor := ⟨b.title, b.author⟩

/-- Driver model: cursor `limit(m)` — `limit 0` means no limit; a negative
limit behaves as its absolute value. -/
def applyLimit (l : List α) (limit : Int) : List α :=
  if limit = 0 then l else l.take limit.natAbs

/-- Driver model: `find({}).skip(n).limit(m).toArray()` — the server rejects
a negative skip value with an error; otherwise it drops `n` documents and
applies the limit. -/
def findSkipLimit (l : List α) (skip limit : Int) : Except String (List α) :=
  if skip < 0 then Except.error "Skip value must be non-negative"
  else Except.ok (applyLimit (l.drop skip.toNat) limit)

/-- Operation `getPage(page = 1, pageSize = 5)` from `queries.js` line 75: computes
`skip = (page - 1) * pageSize` with no validation of its own and forwards
`skip` and `pageSize` unchanged to the cursor, projecting to title/author. -/
def getPage (bs : List Book) (page : Int := 1) (pageSize : Int := 5) :
    Except String (List TitleAuthor) :=
  let skip := (page - 1) * pageSize
  Except.map (List.map projTitleAuthor) (findSkipLimit bs skip pageSize)

/-- Output row of the `avgPriceByGenre` pipeline:
`{ _id: genre, avgPrice, count }`. -/
structure GenreAgg where
  _id : String
  avgPrice : ℚ
  count : Nat
deriving DecidableEq, Repr

/-- The documents of one genre group. -/
def genreDocs (bs : List Book) (g : String) : List Book :=
  bs.filter (fun b => b.genre = g)

/-- The `$group` row for genre `g`: `$avg` of price and `$sum: 1`. -/
def genreRow (bs : List Book) (g : String) : GenreAgg :=
  { _id := g
    avgPrice := ((genreDocs bs g).map Book.price).sum / ((genreDocs bs g).length : ℚ)
    count := (genreDocs bs g).length }

/-- Operation `avgPriceByGenre()` from `queries.js` line 86: pipeline
`$group` by `$genre` (with `$avg` of price and `$sum: 1`), then
`$sort {avgPrice: -1}`. -/
def avgPriceByGenre (bs : List Book) : List GenreAgg :=
  List.insertionSort (fun a b => b.avgPrice ≤ a.avgPrice)
    (((bs.map Book.genre).dedup).map (genreRow bs))

/-- The `$project` stage of `groupByDecade`:
`decade = $multiply [$floor ($divide [published_year, 10]), 10]`. -/
def decadeOf (y : Int) : Int := ⌊(y : ℚ) / 10⌋ * 10

/-- Output row of the `groupByDecade` pipeline: `{ _id: decade, count }`. -/
structure DecadeAgg where
  _id : Int
  count : Nat
deriving DecidableEq, Repr

/-- The `$group` row for decade `d`. -/
def decadeRow (bs : List Book) (d : Int) : DecadeAgg :=
  { _id := d
    count := (bs.filter (fun b => decadeOf b.published_year = d)).length }

/-- Operation `groupByDecade()` from `queries.js` line 109: pipeline `$project` the
decade, `$group` by it with `$sum: 1`, then `$sort {_id: 1}`. -/
def groupByDecade (bs : List Book) : List DecadeAgg :=
  List.insertionSort (fun a b => a._id ≤ b._id)
    (((bs.map (fun b => decadeOf b.published_year)).dedup).map (decadeRow bs))

/-- The two secondary indexes the script creates. -/
inductive IndexSpec where
  | titleAsc
  | authorAscYearDesc
deriving DecidableEq, Repr

/-- Driver model: `createIndex` records the index if it is not already
present; it never changes the documents. -/
def createIndex (idxs : List IndexSpec) (i : IndexSpec) : List IndexSpec :=
  if i ∈ idxs then idxs else idxs ++ [i]

/-- The execution metrics the script reads from `explain("executionStats")`
(the elapsed-time metric is real time and is not modelled). -/
structure ExecStats where
  nReturned : Nat
  totalKeysExamined : Nat
  totalDocsExamined : Nat
deriving DecidableEq, Repr

/-- Modelled from the spec: what the datastore reports via
`explain("executionStats")` for an
equality filter on `title` (the query engine is external to the repository).
Without the title index the plan is a collection scan: every document is
examined and no index keys.  With the title index the plan is an index scan:
one key and one document examined per matching document. -/
def explainFindTitle (bs : List Book) (idxs : List IndexSpec) (t : String) :
    ExecStats :=
  let k := (bs.filter (fun b => b.title = t)).length
  if IndexSpec.titleAsc ∈ idxs then
    { nReturned := k, totalKeysExamined := k, totalDocsExamined := k }
  else
    { nReturned := k, totalKeysExamined := 0, totalDocsExamined := bs.length }

/-- Operation `explainIndexEffect(testQuery = {title: "1984"})` from `queries.js`
line 124: explain the equality query, create the title index and the
compound author/published_year index, explain again; returns both stats and
the final index state. -/
def explainIndexEffect (bs : List Book) (idxs : List IndexSpec)
    (t : String := "1984") : (ExecStats × ExecStats) × List IndexSpec :=
  let before := explainFindTitle bs idxs t
  let idxs1 := createIndex idxs IndexSpec.titleAsc
  let idxs2 := createIndex idxs1 IndexSpec.authorAscYearDesc
  let after := explainFindTitle bs idxs2 t
  ((before, after), idxs2)

/-- Observable events of one run of `main` (`queries.js` lines 9–175). -/
inductive Event where
  | connectedLog
  | opRun (i : Nat)
  | errorLog (msg : String)
  | closed
  | disconnectedLog
deriving DecidableEq, Repr

/-- The sequential catalog inside the `try` block: run each operation in
order, stopping at the first one that raises; returns the events of the
operations that ran and the error, if any. -/
def runCatalog : Nat → List (Except String Unit) → List Event × Option String
  | _, [] => ([], none)
  | i, Except.ok _ :: rest =>
    let r := runCatalog (i + 1) rest
    (Event.opRun i :: r.1, r.2)
  | i, Except.error e :: _ => ([Event.opRun i], some e)

/-- Function `main` from `queries.js`: `try { connect; catalog } catch (err) { log }
finally { close; log }`.  `connect` is the outcome of `client.connect()` and
`ops` the outcomes of the catalog operations. -/
def mainTrace (connect : Except String Unit) (ops : List (Except String Unit)) :
    List Event :=
  match connect with
  | Except.error e => [Event.errorLog e, Event.closed, Event.disconnectedLog]
  | Except.ok _ =>
    let r := runCatalog 0 ops
    Event.connectedLog :: r.1 ++
      (match r.2 with
        | some e => [Event.errorLog e]
        | none => []) ++ [Event.closed, Event.disconnectedLog]

/-- Shorthand for building fixture books. -/
def bkMk (t a g : String) (y : Int) (p : ℚ) (s : Bool) : Book :=
  ⟨t, a, g, y, p, s⟩

/-- The fixture of C6: genre Fiction with prices 10 and 20, genre Sci-Fi with
price 30. -/
def fixtureC6 : List Book :=
  [bkMk "A" "x" "Fiction" 2000 10 true,
   bkMk "B" "y" "Fiction" 2001 20 true,
   bkMk "C" "z" "Sci-Fi" 2002 30 false]

/-- The list of documents one `getPage` call yields (empty on a datastore
error). -/
def pageDocs (bs : List Book) (p k : Int) : List TitleAuthor :=
  ((getPage bs p k).toOption).getD []

/-- The fixture of C7: one book published in 1987 and one in 1990. -/
def fixtureC7 : List Book :=
  [bkMk "X" "a" "G" 1987 10 true,
   bkMk "Y" "b" "G" 1990 20 true]

/-- C1 counterexample: on a collection holding one document with title
"1984" and price 5, calling `updatePrice` with the same price 5 matches the
document but reports `modifiedCount = 0`, not the claimed `modifiedCount = 1`
for every existing title and every new price. -/
theorem updatePrice_counterexample :
    (∃ b ∈ [bkMk "1984" "George Orwell" "Fiction" 1949 5 true], b.title = "1984") ∧
    updatePrice [bkMk "1984" "George Orwell" "Fiction" 1949 5 true] "1984" 5 =
      ([bkMk "1984" "George Orwell" "Fiction" 1949 5 true], 1, 0) := by
  constructor
  · exact ⟨_, List.mem_cons_self _ _, rfl⟩
  · rfl

/-- C1 (amended): `updatePrice(title, newPrice)` modifies at most one
document, and only the price field of the first document with that exact
title, leaving every other field and every other document unchanged.  When no
document has the title it returns the state unchanged with
`matchedCount = 0` and `modifiedCount = 0` and no error; when a document with
the title exists it returns `matchedCount = 1`, and `modifiedCount = 1`
exactly when the new price differs from the stored price (0 when they are
equal). -/
theorem updatePrice_spec (t : String) (p : ℚ) :
    (∀ bs : List Book, (∀ b ∈ bs, b.title ≠ t) → updatePrice bs t p = (bs, 0, 0)) ∧
    (∀ (pre : List Book) (b : Book) (post : List Book), b.title = t →
      (∀ x ∈ pre, x.title ≠ t) →
      updatePrice (pre ++ b :: post) t p =
        (pre ++ { b with price := p } :: post, 1, if b.price = p then 0 else 1)) := by
  constructor
  · intro bs
    induction bs with
    | nil => intro _; rfl
    | cons a l ih =>
      intro h
      have ha : a.title ≠ t := h a (List.mem_cons_self a l)
      have hl := ih (fun x hx => h x (List.mem_cons_of_mem a hx))
      simp only [updatePrice] at hl ⊢
      simp [updateOneSetPrice, ha, hl]
  · intro pre
    induction pre with
    | nil =>
      intro b post hb _
      simp [updatePrice, updateOneSetPrice, hb]
    | cons a l ih =>
      intro b post hb hpre
      have ha : a.title ≠ t := hpre a (List.mem_cons_self a l)
      have hl := ih b post hb (fun x hx => hpre x (List.mem_cons_of_mem a hx))
      simp only [updatePrice] at hl ⊢
      simp [updateOneSetPrice, ha, hl]

/-- C1 witness: updating the price of the one book titled "1984" from 5 to 7
rewrites exactly that price and reports matched 1, modified 1. -/
theorem updatePrice_spec_witness :
    updatePrice [bkMk "1984" "George Orwell" "Fiction" 1949 5 true] "1984" 7 =
      ([bkMk "1984" "George Orwell" "Fiction" 1949 7 true], 1, 1) := by
  have h := (updatePrice_spec "1984" 7).2 []
    (bkMk "1984" "George Orwell" "Fiction" 1949 5 true) [] rfl (by simp)
  exact h.trans (by decide)

/-- C2: `deleteByTitle(title)` removes at most one document — the first one
whose title equals the argument exactly.  When such a document exists it
removes exactly that one and returns `deletedCount = 1`; when none does, the
state is unchanged and `deletedCount = 0` with no error; and when the removed
document was the only one with that title, repeating the call removes
nothing and returns `deletedCount = 0`. -/
theorem deleteByTitle_spec (t : String) :
    (∀ bs : List Book, (deleteByTitle bs t).2 ≤ 1 ∧
      (deleteByTitle bs t).1.length + (deleteByTitle bs t).2 = bs.length) ∧
    (∀ bs : List Book, (∀ b ∈ bs, b.title ≠ t) → deleteByTitle bs t = (bs, 0)) ∧
    (∀ (pre : List Book) (b : Book) (post : List Book), b.title = t →
      (∀ x ∈ pre, x.title ≠ t) →
      deleteByTitle (pre ++ b :: post) t = (pre ++ post, 1)) ∧
    (∀ (pre : List Book) (b : Book) (post : List Book), b.title = t →
      (∀ x ∈ pre, x.title ≠ t) → (∀ x ∈ post, x.title ≠ t) →
      deleteByTitle (deleteByTitle (pre ++ b :: post) t).1 t = (pre ++ post, 0)) := by
  have habs : ∀ bs : List Book, (∀ b ∈ bs, b.title ≠ t) → deleteByTitle bs t = (bs, 0) := by
    intro bs
    induction bs with
    | nil => intro _; rfl
    | cons a l ih =>
      intro h
      have ha : a.title ≠ t := h a (List.mem_cons_self a l)
      have hl := ih (fun x hx => h x (List.mem_cons_of_mem a hx))
      simp only [deleteByTitle] at hl ⊢
      simp [deleteOneByTitle, ha, hl]
  have hfound : ∀ (pre : List Book) (b : Book) (post : List Book), b.title = t →
      (∀ x ∈ pre, x.title ≠ t) →
      deleteByTitle (pre ++ b :: post) t = (pre ++ post, 1) := by
    intro pre
    induction pre with
    | nil =>
      intro b post hb _
      simp [deleteByTitle, deleteOneByTitle, hb]
    | cons a l ih =>
      intro b post hb hpre
      have ha : a.title ≠ t := hpre a (List.mem_cons_self a l)
      have hl := ih b post hb (fun x hx => hpre x (List.mem_cons_of_mem a hx))
      simp only [deleteByTitle] at hl ⊢
      simp [deleteOneByTitle, ha, hl]
  have hcount : ∀ bs : List Book, (deleteByTitle bs t).2 ≤ 1 ∧
      (deleteByTitle bs t).1.length + (deleteByTitle bs t).2 = bs.length := by
    intro bs
    induction bs with
    | nil => exact ⟨Nat.zero_le 1, rfl⟩
    | cons a l ih =>
      simp only [deleteByTitle] at ih ⊢
      by_cases ha : a.title = t
      · simp [deleteOneByTitle, ha]
      · simp only [deleteOneByTitle, if_neg ha]
        simp only [List.length_cons]
        omega
  refine ⟨hcount, habs, hfound, ?_⟩
  intro pre b post hb hpre hpost
  rw [hfound pre b post hb hpre]
  exact habs (pre ++ post) (by
    intro x hx
    cases List.mem_append.1 hx with
    | inl h => exact hpre x h
    | inr h => exact hpost x h)

/-- C2 witness: deleting title "A" from a two-book collection removes the one
book with that title; repeating the deletion removes nothing and reports
count 0. -/
theorem deleteByTitle_spec_witness :
    deleteByTitle (deleteByTitle
        [bkMk "A" "x" "G" 2000 10 true, bkMk "B" "y" "G" 2001 20 true] "A").1 "A" =
      ([bkMk "B" "y" "G" 2001 20 true], 0) := by
  have h := (deleteByTitle_spec "A").2.2.2 [] (bkMk "A" "x" "G" 2000 10 true)
    [bkMk "B" "y" "G" 2001 20 true] rfl (by simp) (by decide)
  exact h

/-- Helper: sorting books by ascending price yields a list whose prices are
pairwise non-decreasing. -/
theorem insertionSort_priceAsc_pairwise (bs : List Book) :
    (List.insertionSort (fun a b : Book => a.price ≤ b.price) bs).Pairwise
      (fun a b : Book => a.price ≤ b.price) := by
  haveI : IsTotal Book (fun a b : Book => a.price ≤ b.price) :=
    ⟨fun a b => le_total _ _⟩
  haveI : IsTrans Book (fun a b : Book => a.price ≤ b.price) :=
    ⟨fun _ _ _ h1 h2 => le_trans h1 h2⟩
  exact List.sorted_insertionSort _ bs

/-- Helper: sorting books by descending price yields a list whose prices are
pairwise non-increasing. -/
theorem insertionSort_priceDesc_pairwise (bs : List Book) :
    (List.insertionSort (fun a b : Book => b.price ≤ a.price) bs).Pairwise
      (fun a b : Book => b.price ≤ a.price) := by
  haveI : IsTotal Book (fun a b : Book => b.price ≤ a.price) :=
    ⟨fun a b => le_total _ _⟩
  haveI : IsTrans Book (fun a b : Book => b.price ≤ a.price) :=
    ⟨fun _ _ _ h1 h2 => le_trans h2 h1⟩
  exact List.sorted_insertionSort _ bs

/-- C3: `sortedByPrice("asc")` returns the whole collection projected to
title and price with prices pairwise non-decreasing, `sortedByPrice("desc")`
with prices pairwise non-increasing, and both results are permutations of
the projected collection (same multiset, ties in unspecified order). -/
theorem sortedByPrice_spec (bs : List Book) :
    (sortedByPrice bs "asc").Pairwise (fun a b => a.price ≤ b.price) ∧
    (sortedByPrice bs "desc").Pairwise (fun a b => b.price ≤ a.price) ∧
    (sortedByPrice bs "asc").Perm (bs.map projTitlePrice) ∧
    (sortedByPrice bs "desc").Perm (bs.map projTitlePrice) := by
  refine ⟨?_, ?_, ?_, ?_⟩
  · rw [sortedByPrice, if_pos rfl, List.pairwise_map]
    exact insertionSort_priceAsc_pairwise bs
  · rw [sortedByPrice, if_neg (by decide), List.pairwise_map]
    exact insertionSort_priceDesc_pairwise bs
  · rw [sortedByPrice, if_pos rfl]
    exact (List.perm_insertionSort _ bs).map projTitlePrice
  · rw [sortedByPrice, if_neg (by decide)]
    exact (List.perm_insertionSort _ bs).map projTitlePrice

/-- C9: only the exact string "asc" selects the ascending sort — for every
other order argument `sortedByPrice` sorts by price descending — and the
omitted argument defaults to "asc", giving an ascending result. -/
theorem sortedByPrice_order_spec :
    (∀ bs : List Book, sortedByPrice bs = sortedByPrice bs "asc") ∧
    (∀ (bs : List Book) (order : String), order ≠ "asc" →
      (sortedByPrice bs order).Pairwise (fun a b => b.price ≤ a.price) ∧
      (sortedByPrice bs order).Perm (bs.map projTitlePrice)) ∧
    (∀ bs : List Book, (sortedByPrice bs).Pairwise (fun a b => a.price ≤ b.price)) := by
  refine ⟨fun bs => rfl, ?_, ?_⟩
  · intro bs order h
    constructor
    · rw [sortedByPrice, if_neg h, List.pairwise_map]
      exact insertionSort_priceDesc_pairwise bs
    · rw [sortedByPrice, if_neg h]
      exact (List.perm_insertionSort _ bs).map projTitlePrice
  · intro bs
    rw [sortedByPrice, if_pos rfl, List.pairwise_map]
    exact insertionSort_priceAsc_pairwise bs

/-- C9 witness: the argument "ASC" is not the exact string "asc", so the
result is sorted by price descending. -/
theorem sortedByPrice_order_spec_witness :
    (sortedByPrice fixtureC6 "ASC").Pairwise (fun a b => b.price ≤ a.price) ∧
    (sortedByPrice fixtureC6 "ASC").Perm (fixtureC6.map projTitlePrice) :=
  sortedByPrice_order_spec.2.1 fixtureC6 "ASC" (by decide)

/-- Helper: concatenating the chunks `drop (i * m) |> take m` for
`i = 0, ..., n - 1` yields the first `n * m` elements. -/
theorem flatten_chunks_eq_take {α β : Type} (f : α → β) (m : Nat) (l : List α) :
    ∀ n : Nat,
      ((List.range n).map (fun i => ((l.drop (i * m)).take m).map f)).flatten =
        (l.take (n * m)).map f := by
  intro n
  induction n with
  | zero => simp
  | succ n ih =>
    rw [List.range_succ, List.map_append, List.flatten_append, ih]
    rw [Nat.succ_mul, List.take_add, List.map_append]
    simp

/-- C4: with `pageSize ≥ 1` and `page ≥ 1`, `getPage` skips exactly
`(page - 1) * pageSize` documents and returns at most `pageSize` documents
projected to title and author, and concatenating the pages in page order
reproduces the whole collection exactly once each, with no duplicates and no
omissions. -/
theorem getPage_partition_spec (bs : List Book) (k : Int) (hk : 1 ≤ k) :
    (∀ p : Int, 1 ≤ p →
      getPage bs p k =
        Except.ok (((bs.drop ((p - 1) * k).toNat).take k.toNat).map projTitleAuthor)) ∧
    (∀ p : Int, 1 ≤ p → (pageDocs bs p k).length ≤ k.toNat) ∧
    (∀ n : Nat, bs.length ≤ n * k.toNat →
      ((List.range n).map (fun i : Nat => pageDocs bs ((i : Int) + 1) k)).flatten =
        bs.map projTitleAuthor) := by
  have hok : ∀ p : Int, 1 ≤ p →
      getPage bs p k =
        Except.ok (((bs.drop ((p - 1) * k).toNat).take k.toNat).map projTitleAuthor) := by
    intro p hp
    have hskip : 0 ≤ (p - 1) * k := mul_nonneg (by omega) (by omega)
    have hk0 : ¬ k = 0 := by omega
    have habs : k.natAbs = k.toNat := by omega
    simp only [getPage, findSkipLimit, applyLimit]
    rw [if_neg (not_lt.2 hskip), if_neg hk0, habs]
    rfl
  have hpage : ∀ p : Int, 1 ≤ p →
      pageDocs bs p k = ((bs.drop ((p - 1) * k).toNat).take k.toNat).map projTitleAuthor := by
    intro p hp
    rw [pageDocs, hok p hp]
    rfl
  refine ⟨hok, ?_, ?_⟩
  · intro p hp
    rw [hpage p hp]
    simp
  · intro n hn
    have heach : ∀ i : Nat,
        pageDocs bs ((i : Int) + 1) k =
          ((bs.drop (i * k.toNat)).take k.toNat).map projTitleAuthor := by
      intro i
      rw [hpage ((i : Int) + 1) (by omega)]
      have harg : (((i : Int) + 1 - 1) * k).toNat = i * k.toNat := by
        have h1 : ((i : Int) + 1 - 1) = (i : Int) := by ring
        rw [h1]
        rcases Int.eq_ofNat_of_zero_le (by omega : (0 : Int) ≤ k) with ⟨m, rfl⟩
        rw [← Int.natCast_mul, Int.toNat_ofNat, Int.toNat_ofNat]
      rw [harg]
    calc ((List.range n).map (fun i : Nat => pageDocs bs ((i : Int) + 1) k)).flatten
        = ((List.range n).map
            (fun i => ((bs.drop (i * k.toNat)).take k.toNat).map projTitleAuthor)).flatten := by
          rw [List.map_congr_left (fun i _ => heach i)]
      _ = (bs.take (n * k.toNat)).map projTitleAuthor :=
          flatten_chunks_eq_take projTitleAuthor k.toNat bs n
      _ = bs.map projTitleAuthor := by rw [List.take_of_length_le hn]

/-- C4 witness: with page size 2 on the three-book fixture, page 2 holds
exactly the third book, and pages 1 and 2 together reproduce the whole
collection. -/
theorem getPage_partition_spec_witness :
    getPage fixtureC6 2 2 =
      Except.ok (((fixtureC6.drop 2).take 2).map projTitleAuthor) ∧
    ((List.range 2).map (fun i : Nat => pageDocs fixtureC6 ((i : Int) + 1) 2)).flatten =
      fixtureC6.map projTitleAuthor := by
  constructor
  · have h := (getPage_partition_spec fixtureC6 2 (by decide)).1 2 (by decide)
    exact h.trans (by rfl)
  · exact (getPage_partition_spec fixtureC6 2 (by decide)).2.2 2 (by decide)

/-- C10: `getPage` validates nothing itself — for every page and pageSize it
computes `skip = (page - 1) * pageSize` and forwards it with `pageSize`
unchanged to the datastore cursor.  The only possible failure is the
datastore rejecting a negative skip, which happens exactly when
`(page - 1) * pageSize < 0` — in particular for every `page < 1` with
`pageSize ≥ 1` — and on every non-negative skip the call succeeds, whatever
the pageSize. -/
theorem getPage_no_validation_spec (bs : List Book) (page pageSize : Int) :
    ((∃ msg, getPage bs page pageSize = Except.error msg) ↔
      (page - 1) * pageSize < 0) ∧
    (0 ≤ (page - 1) * pageSize →
      getPage bs page pageSize =
        Except.ok
          (applyLimit ((bs.map projTitleAuthor).drop ((page - 1) * pageSize).toNat)
            pageSize)) ∧
    (page < 1 → 1 ≤ pageSize →
      getPage bs page pageSize = Except.error "Skip value must be non-negative") := by
  have hko : ∀ h : (page - 1) * pageSize < 0,
      getPage bs page pageSize = Except.error "Skip value must be non-negative" := by
    intro h
    simp only [getPage, findSkipLimit]
    rw [if_pos h]
    rfl
  have hok : ∀ h : 0 ≤ (page - 1) * pageSize,
      getPage bs page pageSize =
        Except.ok
          (applyLimit ((bs.map projTitleAuthor).drop ((page - 1) * pageSize).toNat)
            pageSize) := by
    intro h
    simp only [getPage, findSkipLimit, applyLimit]
    rw [if_neg (not_lt.2 h)]
    by_cases h0 : pageSize = 0
    · rw [if_pos h0, if_pos h0]
      simp [Except.map, List.map_drop]
    · rw [if_neg h0, if_neg h0]
      simp [Except.map, List.map_drop, List.map_take]
  refine ⟨⟨?_, ?_⟩, hok, ?_⟩
  · rintro ⟨msg, hmsg⟩
    by_contra hge
    rw [hok (by omega)] at hmsg
    exact Except.noConfusion hmsg
  · intro h
    exact ⟨"Skip value must be non-negative", hko h⟩
  · intro hpage hps
    exact hko (mul_neg_of_neg_of_pos (by omega) (by omega))

/-- C10 witness: page 0 with page size 5 computes skip -5, which the
datastore rejects; the script itself raises nothing. -/
theorem getPage_no_validation_spec_witness :
    getPage fixtureC6 0 5 = Except.error "Skip value must be non-negative" :=
  (getPage_no_validation_spec fixtureC6 0 5).2.2 (by decide) (by decide)

/-- Helper: peeling the first index off a contiguous block of operation-run
events. -/
theorem range_map_opRun_shift (n start : Nat) :
    (List.range (n + 1)).map (fun d => Event.opRun (start + d)) =
      Event.opRun start :: (List.range n).map (fun d => Event.opRun (start + 1 + d)) := by
  rw [List.range_succ_eq_map, List.map_cons, List.map_map]
  refine congrArg₂ List.cons (congrArg Event.opRun (by omega)) ?_
  refine List.map_congr_left (fun d _ => ?_)
  simp only [Function.comp_apply]
  exact congrArg Event.opRun (by omega)

/-- Helper: the catalog trace contains only operation-run events. -/
theorem runCatalog_opRun_only :
    ∀ (ops : List (Except String Unit)) (start : Nat) (ev : Event),
      ev ∈ (runCatalog start ops).1 → ∃ j, ev = Event.opRun j := by
  intro ops
  induction ops with
  | nil =>
    intro start ev h
    simp [runCatalog] at h
  | cons op rest ih =>
    intro start ev h
    cases op with
    | ok u =>
      simp only [runCatalog, List.mem_cons] at h
      cases h with
      | inl h => exact ⟨start, h⟩
      | inr h => exact ih (start + 1) ev h
    | error e =>
      simp only [runCatalog, List.mem_cons, List.not_mem_nil, or_false] at h
      exact ⟨start, h⟩

/-- Helper: when the operation at index `i` raises and every earlier one
succeeds, the catalog runs exactly operations `0, ..., i` and stops with
that error. -/
theorem runCatalog_error_eq :
    ∀ (ops : List (Except String Unit)) (i : Nat) (e : String) (start : Nat),
      ops[i]? = some (Except.error e) →
      (∀ j, j < i → ops[j]? = some (Except.ok ())) →
      runCatalog start ops =
        ((List.range (i + 1)).map (fun d => Event.opRun (start + d)), some e) := by
  intro ops
  induction ops with
  | nil =>
    intro i e start h _
    simp at h
  | cons op rest ih =>
    intro i e start h hpref
    cases i with
    | zero =>
      simp only [List.getElem?_cons_zero, Option.some.injEq] at h
      subst h
      simp [runCatalog, List.range_succ]
    | succ i =>
      have h0 : op = Except.ok () := by
        have := hpref 0 (Nat.succ_pos i)
        simpa using this
      subst h0
      have hrest : rest[i]? = some (Except.error e) := by simpa using h
      have hpref2 : ∀ j, j < i → rest[j]? = some (Except.ok ()) := by
        intro j hj
        have := hpref (j + 1) (by omega)
        simpa using this
      have hr := ih i e (start + 1) hrest hpref2
      simp only [runCatalog, hr]
      rw [range_map_opRun_shift (i + 1) start]

/-- C5: on every execution path of `main` — connect failing, the catalog
raising at any operation, or the catalog completing — the connection is
closed exactly once, as the last action before the final log; and when
operation `i` raises after successful earlier operations, the error is
caught and logged and exactly the operations `0, ..., i` ran — none after
the failing one. -/
theorem mainTrace_spec (connect : Except String Unit) (ops : List (Except String Unit)) :
    (mainTrace connect ops).count Event.closed = 1 ∧
    (∃ pre, mainTrace connect ops = pre ++ [Event.closed, Event.disconnectedLog] ∧
      Event.closed ∉ pre) ∧
    (∀ (i : Nat) (e : String), connect = Except.ok () →
      ops[i]? = some (Except.error e) →
      (∀ j, j < i → ops[j]? = some (Except.ok ())) →
      Event.errorLog e ∈ mainTrace connect ops ∧
      (∀ j : Nat, Event.opRun j ∈ mainTrace connect ops ↔ j ≤ i)) := by
  have hshape : ∃ pre, mainTrace connect ops = pre ++ [Event.closed, Event.disconnectedLog] ∧
      Event.closed ∉ pre := by
    cases connect with
    | error e => exact ⟨[Event.errorLog e], rfl, by simp⟩
    | ok u =>
      cases u
      rcases hr2 : (runCatalog 0 ops).2 with _ | e
      · refine ⟨Event.connectedLog :: (runCatalog 0 ops).1, ?_, ?_⟩
        · simp [mainTrace, hr2]
        · intro hmem
          rcases List.mem_cons.1 hmem with h | h
          · exact Event.noConfusion h
          · rcases runCatalog_opRun_only ops 0 _ h with ⟨j, hj⟩
            exact Event.noConfusion hj
      · refine ⟨Event.connectedLog :: ((runCatalog 0 ops).1 ++ [Event.errorLog e]), ?_, ?_⟩
        · simp [mainTrace, hr2]
        · intro hmem
          rcases List.mem_cons.1 hmem with h | h
          · exact Event.noConfusion h
          · rcases List.mem_append.1 h with h | h
            · rcases runCatalog_opRun_only ops 0 _ h with ⟨j, hj⟩
              exact Event.noConfusion hj
            · simp at h
  obtain ⟨pre, hpre, hnot⟩ := hshape
  have hcount : (mainTrace connect ops).count Event.closed = 1 := by
    rw [hpre, List.count_append, List.count_eq_zero.2 hnot]
    rfl
  refine ⟨hcount, ⟨pre, hpre, hnot⟩, ?_⟩
  intro i e hconn hi hprefix
  subst hconn
  have hr := runCatalog_error_eq ops i e 0 hi hprefix
  constructor
  · simp [mainTrace, hr]
  · intro j
    simp only [mainTrace, hr, List.mem_cons, List.mem_append, List.mem_map,
      List.mem_range, List.mem_singleton]
    constructor
    · intro h
      rcases h with ((h | ⟨d, hd, hdj⟩) | h | h) | h | h | h
      · exact Event.noConfusion h
      · have hdj2 := Event.opRun.inj hdj
        omega
      · exact Event.noConfusion h
      · simp at h
      · exact Event.noConfusion h
      · exact Event.noConfusion h
      · simp at h
    · intro hj
      refine Or.inl (Or.inl (Or.inr ⟨j, by omega, ?_⟩))
      exact congrArg Event.opRun (by omega)

/-- C5 witness: with a three-operation catalog whose second operation raises,
the trace closes the connection exactly once, logs the error, and the third
operation never runs. -/
theorem mainTrace_spec_witness :
    (mainTrace (Except.ok ()) [Except.ok (), Except.error "boom", Except.ok ()]).count
        Event.closed = 1 ∧
    Event.errorLog "boom" ∈
      mainTrace (Except.ok ()) [Except.ok (), Except.error "boom", Except.ok ()] ∧
    ¬ Event.opRun 2 ∈
      mainTrace (Except.ok ()) [Except.ok (), Except.error "boom", Except.ok ()] := by
  have h := mainTrace_spec (Except.ok ()) [Except.ok (), Except.error "boom", Except.ok ()]
  have hpref : ∀ j, j < 1 →
      ([Except.ok (), Except.error "boom", Except.ok ()][j]? = some (Except.ok ())) := by
    intro j hj
    have hj0 : j = 0 := Nat.lt_one_iff.1 hj
    subst hj0
    rfl
  have h3 := h.2.2 1 "boom" rfl rfl hpref
  refine ⟨h.1, h3.1, ?_⟩
  intro hmem
  have := (h3.2 2).1 hmem
  exact absurd this (by decide)

/-- C6: `avgPriceByGenre` returns one row per genre occurring in the
collection, carrying that genre's document count and the arithmetic mean of
its prices, sorted by mean price descending; on the fixture with Fiction
prices 10 and 20 and Sci-Fi price 30 it returns the Sci-Fi row (mean 30,
count 1) before the Fiction row (mean 15, count 2). -/
theorem avgPriceByGenre_spec (bs : List Book) :
    (avgPriceByGenre bs).Pairwise (fun a b => b.avgPrice ≤ a.avgPrice) ∧
    (∀ e ∈ avgPriceByGenre bs, e._id ∈ bs.map Book.genre ∧ 0 < e.count ∧
      e.count = (genreDocs bs e._id).length ∧
      e.avgPrice * (e.count : ℚ) = ((genreDocs bs e._id).map Book.price).sum) ∧
    (∀ g ∈ bs.map Book.genre, ∃ e ∈ avgPriceByGenre bs, e._id = g) ∧
    avgPriceByGenre fixtureC6 =
      [{ _id := "Sci-Fi", avgPrice := 30, count := 1 },
       { _id := "Fiction", avgPrice := 15, count := 2 }] := by
  refine ⟨?_, ?_, ?_, ?_⟩
  · haveI : IsTotal GenreAgg (fun a b => b.avgPrice ≤ a.avgPrice) :=
      ⟨fun a b => le_total _ _⟩
    haveI : IsTrans GenreAgg (fun a b => b.avgPrice ≤ a.avgPrice) :=
      ⟨fun _ _ _ h1 h2 => le_trans h2 h1⟩
    exact List.sorted_insertionSort _ _
  · intro e he
    rw [avgPriceByGenre, List.mem_insertionSort] at he
    rcases List.mem_map.1 he with ⟨g, hg, rfl⟩
    have hgbs : g ∈ bs.map Book.genre := List.mem_dedup.1 hg
    have hpos : 0 < (genreDocs bs g).length := by
      rcases List.mem_map.1 hgbs with ⟨b, hb, rfl⟩
      have hbmem : b ∈ genreDocs bs b.genre := List.mem_filter.2 ⟨hb, by simp⟩
      exact List.length_pos_of_mem hbmem
    have hne : ((genreDocs bs g).length : ℚ) ≠ 0 := Nat.cast_ne_zero.2 (Nat.pos_iff_ne_zero.1 hpos)
    refine ⟨hgbs, hpos, rfl, ?_⟩
    exact div_mul_cancel₀ _ hne
  · intro g hg
    refine ⟨genreRow bs g, ?_, rfl⟩
    rw [avgPriceByGenre, List.mem_insertionSort]
    exact List.mem_map.2 ⟨g, List.mem_dedup.2 hg, rfl⟩
  · simp +decide [avgPriceByGenre, genreRow, genreDocs, fixtureC6, bkMk,
      List.dedup, List.pwFilter, List.insertionSort, List.orderedInsert, List.filter]
    norm_num

/-- C6 witness: the Sci-Fi row of the fixture result is a genre of the
fixture with count 1, and its mean price 30 times its count equals the sum
of Sci-Fi prices. -/
theorem avgPriceByGenre_spec_witness :
    ({ _id := "Sci-Fi", avgPrice := 30, count := 1 } : GenreAgg)._id ∈
      fixtureC6.map Book.genre ∧
    0 < ({ _id := "Sci-Fi", avgPrice := 30, count := 1 } : GenreAgg).count ∧
    ({ _id := "Sci-Fi", avgPrice := 30, count := 1 } : GenreAgg).count =
      (genreDocs fixtureC6 "Sci-Fi").length ∧
    ({ _id := "Sci-Fi", avgPrice := 30, count := 1 } : GenreAgg).avgPrice *
        (({ _id := "Sci-Fi", avgPrice := 30, count := 1 } : GenreAgg).count : ℚ) =
      ((genreDocs fixtureC6 "Sci-Fi").map Book.price).sum := by
  have hmem : ({ _id := "Sci-Fi", avgPrice := 30, count := 1 } : GenreAgg) ∈
      avgPriceByGenre fixtureC6 := by
    rw [(avgPriceByGenre_spec fixtureC6).2.2.2]
    simp
  exact (avgPriceByGenre_spec fixtureC6).2.1 _ hmem

/-- C7: `groupByDecade` groups the documents by
`decade = floor(published_year / 10) * 10`, one row per occurring decade
with the number of documents of that decade, sorted by decade ascending; in
particular published year 1987 falls in decade 1980 and 1990 in decade 1990. -/
theorem groupByDecade_spec (bs : List Book) :
    (groupByDecade bs).Pairwise (fun a b => a._id ≤ b._id) ∧
    (∀ e ∈ groupByDecade bs, 0 < e.count ∧
      e.count = (bs.filter (fun b => decadeOf b.published_year = e._id)).length ∧
      e._id ∈ bs.map (fun b => decadeOf b.published_year)) ∧
    (∀ b ∈ bs, ∃ e ∈ groupByDecade bs, e._id = decadeOf b.published_year) ∧
    decadeOf 1987 = 1980 ∧ decadeOf 1990 = 1990 ∧
    groupByDecade fixtureC7 =
      [{ _id := 1980, count := 1 }, { _id := 1990, count := 1 }] := by
  have h87 : decadeOf 1987 = 1980 := by norm_num [decadeOf]
  have h90 : decadeOf 1990 = 1990 := by norm_num [decadeOf]
  refine ⟨?_, ?_, ?_, h87, h90, ?_⟩
  · haveI : IsTotal DecadeAgg (fun a b => a._id ≤ b._id) :=
      ⟨fun a b => le_total _ _⟩
    haveI : IsTrans DecadeAgg (fun a b => a._id ≤ b._id) :=
      ⟨fun _ _ _ h1 h2 => le_trans h1 h2⟩
    exact List.sorted_insertionSort _ _
  · intro e he
    rw [groupByDecade, List.mem_insertionSort] at he
    rcases List.mem_map.1 he with ⟨d, hd, rfl⟩
    have hdbs : d ∈ bs.map (fun b => decadeOf b.published_year) := List.mem_dedup.1 hd
    have hpos : 0 < (bs.filter (fun b => decadeOf b.published_year = d)).length := by
      rcases List.mem_map.1 hdbs with ⟨b, hb, rfl⟩
      have hbmem : b ∈ bs.filter
          (fun x => decadeOf x.published_year = decadeOf b.published_year) :=
        List.mem_filter.2 ⟨hb, by simp⟩
      exact List.length_pos_of_mem hbmem
    exact ⟨hpos, rfl, hdbs⟩
  · intro b hb
    refine ⟨decadeRow bs (decadeOf b.published_year), ?_, rfl⟩
    rw [groupByDecade, List.mem_insertionSort]
    exact List.mem_map.2
      ⟨decadeOf b.published_year,
       List.mem_dedup.2 (List.mem_map.2 ⟨b, hb, rfl⟩), rfl⟩
  · simp +decide [groupByDecade, decadeRow, fixtureC7, bkMk, h87, h90,
      List.dedup, List.pwFilter, List.insertionSort, List.orderedInsert, List.filter]

/-- C7 witness: on the fixture with one book from 1987 and one from 1990,
the decade-1980 row counts exactly the one 1987 book. -/
theorem groupByDecade_spec_witness :
    0 < ({ _id := 1980, count := 1 } : DecadeAgg).count ∧
    ({ _id := 1980, count := 1 } : DecadeAgg).count =
      (fixtureC7.filter
        (fun b => decadeOf b.published_year =
          ({ _id := 1980, count := 1 } : DecadeAgg)._id)).length ∧
    ({ _id := 1980, count := 1 } : DecadeAgg)._id ∈
      fixtureC7.map (fun b => decadeOf b.published_year) := by
  have hmem : ({ _id := 1980, count := 1 } : DecadeAgg) ∈ groupByDecade fixtureC7 := by
    rw [(groupByDecade_spec fixtureC7).2.2.2.2.2]
    simp
  exact (groupByDecade_spec fixtureC7).2.1 _ hmem

/-- C8: starting from a collection with no indexes, `explainIndexEffect`
explains the title-equality query before and after creating the title index
and the compound author/published_year index: the post-index run examines at
most as many index keys as the pre-index run examined documents, it returns
the same number of rows, and both indexes remain in the final index state. -/
theorem explainIndexEffect_spec (bs : List Book) (t : String) :
    (explainIndexEffect bs [] t).1.2.totalKeysExamined ≤
      (explainIndexEffect bs [] t).1.1.totalDocsExamined ∧
    (explainIndexEffect bs [] t).1.1 = explainFindTitle bs [] t ∧
    IndexSpec.titleAsc ∈ (explainIndexEffect bs [] t).2 ∧
    IndexSpec.authorAscYearDesc ∈ (explainIndexEffect bs [] t).2 ∧
    (explainIndexEffect bs [] t).1.2.nReturned =
      (explainIndexEffect bs [] t).1.1.nReturned := by
  refine ⟨?_, rfl, ?_, ?_, ?_⟩
  · show (explainFindTitle bs (createIndex (createIndex [] IndexSpec.titleAsc)
      IndexSpec.authorAscYearDesc) t).totalKeysExamined ≤
      (explainFindTitle bs [] t).totalDocsExamined
    simp only [createIndex, explainFindTitle]
    simp only [List.not_mem_nil, if_false]
    exact List.length_filter_le _ _
  · exact List.mem_cons_self _ _
  · exact List.mem_cons_of_mem _ (List.mem_cons_self _ _)
  · show (explainFindTitle bs (createIndex (createIndex [] IndexSpec.titleAsc)
      IndexSpec.authorAscYearDesc) t).nReturned = (explainFindTitle bs [] t).nReturned
    simp +decide [createIndex, explainFindTitle]
